import Mathlib

/-!
# Model of the pyft chunked transfer engine

Shallow embedding of the range-partitioning, progress-store, probe, worker
and coordinator logic of `src/pyft/client.py` and of the upload handler of
`src/pyft/server.py`.  Python integers are modelled as `Int` (Python floor
division `//` is `Int.fdiv`), header values as `Option String`, byte blocks
as `List Nat`, and wall-clock times as `ℚ`.
-/

/-- The per-range record `ChunkInfo(start, end, downloaded, complete)` of
`client.py`.  The inclusive upper bound `end` is a Lean keyword, so the field
is called `stop`; it is `-1` for an empty range. -/
structure ChunkInfo where
  start : Int
  stop : Int
  downloaded : Int := 0
  complete : Bool := false
deriving Repr, DecidableEq

/-- The partition loop shared by `Downloader.download` (client.py:198-209) and
`Uploader.upload` (client.py:316-325): `chunk_size = total_size // num_threads`;
range `i` starts at `i * chunk_size` and ends at `start + chunk_size - 1`,
except the last range which ends at `total_size - 1`.  `progress i` seeds the
`downloaded` field (the downloader's `progress.get(i, 0)`; the uploader always
passes `fun _ => 0`). -/
def buildChunks (totalSize : Int) (numThreads : Nat) (progress : Nat → Int) :
    List ChunkInfo :=
  let chunkSize := totalSize.fdiv numThreads
  (List.range numThreads).map (fun (i : Nat) =>
    let start := (i : Int) * chunkSize
    let stop := if i < numThreads - 1 then start + chunkSize - 1 else totalSize - 1
    { start := start, stop := stop, downloaded := progress i, complete := false })

/-- Structural splitting of a character list at a separator character,
matching Python `str.split(sep)`: `"".split(sep) == [""]`, separators at the
ends produce empty fields. -/
def splitOnChar (c : Char) : List Char → List (List Char)
  | [] => [[]]
  | x :: xs =>
    let r := splitOnChar c xs
    if x = c then [] :: r
    else (x :: r.headD []) :: r.tail

/-- Python `str.strip()` whitespace. -/
def isPySpace (c : Char) : Bool :=
  c = ' ' || c = '\t' || c = '\n' || c = '\r'

/-- Python `str.strip()`: drop whitespace from both ends. -/
def stripChars (l : List Char) : List Char :=
  ((l.dropWhile isPySpace).reverse.dropWhile isPySpace).reverse

/-- The value of a nonempty all-digit character list, `none` otherwise. -/
def digitsVal (cs : List Char) : Option Nat :=
  if !cs.isEmpty && cs.all Char.isDigit then
    some (cs.foldl (fun a c => 10 * a + (c.toNat - 48)) 0)
  else none

/-- Python `int(s)` on the decimal strings this program meets: surrounding
whitespace stripped, an optional sign, then one or more digits; `none` models
the `ValueError` that `int` raises on anything else. -/
def pyInt (s : String) : Option Int :=
  match stripChars s.toList with
  | '-' :: rest => (digitsVal rest).map (fun v => -(v : Int))
  | '+' :: rest => (digitsVal rest).map (fun v => (v : Int))
  | l => (digitsVal l).map (fun v => (v : Int))

/-- Python's iteration over the lines of a text file: split on newline; a
trailing newline produces no extra empty line, an empty file has no lines.
(The trailing `"\n"` of each Python line is dropped here; the parser strips
each line anyway.) -/
def pyLines (s : String) : List (List Char) :=
  let parts := splitOnChar '\n' s.toList
  if parts.getLast? = some [] then parts.dropLast else parts

/-- One line of the progress file as read by `_load_progress`
(client.py:95-99): `line.strip().split(":")` must produce exactly the two
fields of the unpacking `for chunk, pos in [...]`, each `int()`-parseable;
`none` models the exception the surrounding `try` catches. -/
def parseProgressLine (line : List Char) : Option (Int × Int) :=
  match splitOnChar ':' (stripChars line) with
  | [a, b] =>
    match pyInt (String.mk a), pyInt (String.mk b) with
    | some x, some y => some (x, y)
    | _, _ => none
  | _ => none

/-- The whole-record parse of `_load_progress`: every line must parse, the
result is the association list of `chunk : pos` entries in file order. -/
def parseProgress (content : String) : Option (List (Int × Int)) :=
  (pyLines content).mapM parseProgressLine

/-- Model of `Downloader._load_progress` (client.py:89-102).  `none` models a missing
progress file; any parse failure is caught by the bare `except` and degrades
to the empty mapping, so the function never raises. -/
def loadProgress (file : Option String) : List (Int × Int) :=
  match file with
  | none => []
  | some content => (parseProgress content).getD []

/-- The lines written by `Downloader._save_progress` (client.py:104-109):
`f"{i}:{chunk.downloaded}\n"` for the chunks in index order. -/
def progressLines (chunks : List ChunkInfo) : List String :=
  chunks.enum.map (fun p => toString p.1 ++ ":" ++ toString p.2.downloaded ++ "\n")

/-- The states of the checkpoint write: `_save_progress` opens the progress file with mode `"w"` — truncating
whatever record was on disk — and then issues one `write` per chunk.  Entry
`k` of this list is the file content visible after the truncating `open` and
the first `k` writes; a crash during the save leaves one of these contents on
disk. -/
def saveProgressStates (chunks : List ChunkInfo) : List String :=
  (List.range (chunks.length + 1)).map
    (fun k => String.join ((progressLines chunks).take k))

/-- Outcome of one pass of a coordinator monitor loop. -/
inductive MonitorOutcome
  | complete
  | failed
  | stillRunning
deriving Repr, DecidableEq

/-- One iteration of `Downloader.download`'s monitor loop (client.py:219-227):
it only compares the shared `self.downloaded` counter with `self.total_size`
and never inspects the workers' futures.  A worker's future is `none` while
running and `some r` once finished with result `r`. -/
def downloadMonitorStep (downloaded totalSize : Int)
    (results : List (Option Bool)) : MonitorOutcome :=
  if downloaded < totalSize then MonitorOutcome.stillRunning
  else MonitorOutcome.complete

/-- One iteration of `Uploader.upload`'s monitor loop (client.py:335-350):
exit with success when `uploaded` has reached `file_size`; otherwise return
failure as soon as some finished future yielded `False`
(`f.done() and not f.result()`), else keep polling. -/
def uploadMonitorStep (uploaded fileSize : Int)
    (results : List (Option Bool)) : MonitorOutcome :=
  if uploaded < fileSize then
    if results.any (fun r => r == some false) then MonitorOutcome.failed
    else MonitorOutcome.stillRunning
  else MonitorOutcome.complete

/-- Python truthiness of an optional header value (`if size:`): present and
non-empty. -/
def headerTruthy : Option String → Bool
  | none => false
  | some s => !(s == "")

/-- Conversion `int(size)` of a header value: `Except.error ()` models the uncaught
`ValueError` `int` would raise on a non-numeric header. -/
def intOfHeader (s : String) : Except Unit Int :=
  match pyInt s with
  | some v => Except.ok v
  | none => Except.error ()

/-- Model of `Downloader._get_file_size` (client.py:46-64), as a function of the
`content-length` values of the HEAD probe and of the streaming GET probe
(`none` = header absent).  The HEAD value is used unless it is falsy or one of
the sentinel strings `"0"` / `"357"`; then the GET value is used if truthy;
otherwise the size is unknown (`Except.ok none`). -/
def getFileSize (headSize getSize : Option String) : Except Unit (Option Int) :=
  if headerTruthy headSize && !(headSize == some "0") && !(headSize == some "357") then
    (intOfHeader (headSize.getD "")).map some
  else if headerTruthy getSize then
    (intOfHeader (getSize.getD "")).map some
  else Except.ok none

/-- The observable steps of `Downloader.download` (client.py:165-234). -/
inductive DlOp
  | sizeProbe        -- `_get_file_size`
  | singleStream     -- `_single_thread_download`
  | rangeProbe       -- the one-byte `Range: bytes=0-0` test request
  | preallocate      -- create the output file of `total_size` bytes
  | loadProgressOp   -- `_load_progress`
  | partitionRanges  -- the chunk-building loop
  | spawnWorkers     -- the `ThreadPoolExecutor` running `_download_chunk`
  | monitorLoop      -- the progress-polling loop
  | removeProgressFile
deriving Repr, DecidableEq

/-- Control skeleton of `Downloader.download`: which steps run, decided by the
probed size and the status of the one-byte range-probe response (the probe is
only issued when a size was obtained; on a non-206 status or an unknown size
the method takes `_single_thread_download` and returns at once). -/
def downloadPlan (size : Option Int) (rangeProbeStatus : Nat) : List DlOp :=
  match size with
  | none => [DlOp.sizeProbe, DlOp.singleStream]
  | some _ =>
    if rangeProbeStatus != 206 then
      [DlOp.sizeProbe, DlOp.rangeProbe, DlOp.singleStream]
    else
      [DlOp.sizeProbe, DlOp.rangeProbe, DlOp.preallocate, DlOp.loadProgressOp,
       DlOp.partitionRanges, DlOp.spawnWorkers, DlOp.monitorLoop,
       DlOp.removeProgressFile]

/-- Model of `Downloader._single_thread_download` (client.py:66-87): stream the body
block by block into the temp file while counting the bytes; the result is the
written content and the returned `downloaded_size`. -/
def singleThreadDownload (blocks : List (List Nat)) : List Nat × Int :=
  blocks.foldl (fun acc b => (acc.1 ++ b, acc.2 + (b.length : Int))) ([], 0)

/-- The `Range` request header built by `Downloader._download_chunk`
(client.py:126): the request resumes at `start + downloaded`. -/
def downloadRangeHeader (chunk : ChunkInfo) : String :=
  "bytes=" ++ toString (chunk.start + chunk.downloaded) ++ "-" ++
    toString chunk.stop

/-- Result of one `_download_chunk` worker: the boolean handed back to the
pool, the `(offset, block)` writes performed on the output file, and the final
chunk record. -/
structure WorkerRun where
  result : Bool
  writes : List (Int × List Nat)
  chunk : ChunkInfo
deriving Repr, DecidableEq

/-- The block-receiving loop of `_download_chunk` (client.py:136-158): write
each block at the current offset (the file was seeked to
`start + downloaded` and advances with each write), break on an empty block,
and return early with `True` when the pause event is observed before a block;
after the loop the chunk is marked complete. -/
def downloadChunkLoop (chunk : ChunkInfo) (blocks : List (List Nat))
    (pause : List Bool) (acc : List (Int × List Nat)) : WorkerRun :=
  match blocks with
  | [] => { result := true, writes := acc,
            chunk := { chunk with complete := true } }
  | b :: bs =>
    if b.isEmpty then
      { result := true, writes := acc, chunk := { chunk with complete := true } }
    else if pause.headD false then
      { result := true, writes := acc, chunk := chunk }
    else
      downloadChunkLoop
        { chunk with downloaded := chunk.downloaded + b.length }
        bs pause.tail (acc ++ [(chunk.start + chunk.downloaded, b)])

/-- Model of `Downloader._download_chunk` (client.py:123-163) as a function of the
response status, the received blocks, and the pause-event value observed
before each block: a non-206 status raises `ValueError`, which the
surrounding `try` catches, returning `False` with nothing written; on 206 the
blocks are written from `start + downloaded` onward. -/
def downloadChunk (chunk : ChunkInfo) (status : Nat) (blocks : List (List Nat))
    (pause : List Bool) : WorkerRun :=
  if status != 206 then { result := false, writes := [], chunk := chunk }
  else downloadChunkLoop chunk blocks pause []

/-- The offsets at which a run of consecutive blocks lands, starting at
`base`. -/
def mkWrites (base : Int) : List (List Nat) → List Bool → List (Int × List Nat)
  | [], _ => []
  | b :: bs, ps =>
    if b.isEmpty then []
    else if ps.headD false then []
    else (base, b) :: mkWrites (base + b.length) bs ps.tail

/-- The `Content-Range` header sent by `Uploader._upload_chunk`
(client.py:280). -/
def contentRangeHeader (chunk : ChunkInfo) (fileSize : Int) : String :=
  "bytes " ++ toString chunk.start ++ "-" ++ toString chunk.stop ++ "/" ++
    toString fileSize

/-- The slice read by `_upload_chunk` (client.py:288-290): `f.seek(start)`
then `f.read(end - start + 1)` (Python `read` with a negative count — which
cannot arise from the partitioner — reads to EOF). -/
def readChunkData (file : List Nat) (chunk : ChunkInfo) : List Nat :=
  let rest := file.drop chunk.start.toNat
  let count := chunk.stop - chunk.start + 1
  if count < 0 then rest else rest.take count.toNat

/-- Model of `Uploader._upload_chunk` (client.py:275-310): with the pause event set it
returns `True` at once, before touching anything; otherwise it reads the
slice and posts it; a non-2xx response (`raise_for_status`) is caught and
yields `False` with no state change; on success it sets `chunk.downloaded`,
adds to the shared `uploaded` counter and marks the chunk complete.  Returns
`(result, final chunk, final uploaded)`. -/
def uploadChunk (chunk : ChunkInfo) (pauseSet : Bool) (file : List Nat)
    (respOk : Bool) (uploaded : Int) : Bool × ChunkInfo × Int :=
  if pauseSet then (true, chunk, uploaded)
  else
    let data := readChunkData file chunk
    if respOk then
      (true,
       { chunk with downloaded := (data.length : Int), complete := true },
       uploaded + data.length)
    else (false, chunk, uploaded)

/-- Model of `handle_upload` of `server.py` (lines 173-218): after the token and
content-length checks it reads the body and rewrites the destination file
with exactly that body — the `Content-Range` header is never consulted.
Returns the HTTP status and the file content left on disk. -/
def handleUpload (tokenValid : Bool) (contentLength : Nat) (body : List Nat)
    (oldFile : List Nat) : Nat × List Nat :=
  if !tokenValid then (403, oldFile)
  else if contentLength == 0 then (400, oldFile)
  else (200, body)

/-- Modelled from the spec: the server-side placement the claim expects —
the received slice is written at byte offset `start` within the assembled
file, the other bytes staying in place. -/
def placeSliceAtOffsetSpec (oldFile data : List Nat) (offset : Nat) :
    List Nat :=
  (oldFile.take offset) ++ data ++ (oldFile.drop (offset + data.length))

/-- The outcome of one `_update_progress` call: the `(percent, speed)` pair
delivered to the callback (`none` when the 100 ms window has not elapsed or no
callback is registered), the new `last_update`, the stored `speed`, and the
value returned for `bytes_added`. -/
structure ProgressReport where
  callbackArgs : Option (ℚ × ℚ)
  newLastUpdate : ℚ
  newSpeed : ℚ
  bytesAddedOut : Int
deriving DecidableEq

/-- Model of `_update_progress` of `Downloader` (client.py:111-121) and `Uploader`
(client.py:263-273), with wall-clock seconds as rationals: when at least
0.1 s elapsed since `last_update`, compute
`speed = bytes_added / time_diff / 1024` (the comment in the source says
"Convert to KB/s") and, if a callback is registered, deliver
`(transferred / total_size * 100, speed)`; then reset `last_update` and zero
the pending byte count; otherwise change nothing and return `bytes_added`. -/
def updateProgress (bytesAdded : Int) (currentTime lastUpdate : ℚ)
    (transferred totalSize : Int) (hasCallback : Bool) (prevSpeed : ℚ) :
    ProgressReport :=
  let timeDiff := currentTime - lastUpdate
  if timeDiff ≥ 1 / 10 then
    let speed := (bytesAdded : ℚ) / timeDiff / 1024
    { callbackArgs :=
        if hasCallback then
          some ((transferred : ℚ) / (totalSize : ℚ) * 100, speed)
        else none,
      newLastUpdate := currentTime,
      newSpeed := speed,
      bytesAddedOut := 0 }
  else
    { callbackArgs := none, newLastUpdate := lastUpdate,
      newSpeed := prevSpeed, bytesAddedOut := bytesAdded }

lemma buildChunks_length (total : Int) (n : Nat) (progress : Nat → Int) :
    (buildChunks total n progress).length = n := by
  simp [buildChunks]

lemma buildChunks_getElem? (total : Int) (n : Nat) (progress : Nat → Int)
    (i : Nat) (h : i < n) :
    (buildChunks total n progress)[i]? =
      some { start := (i : Int) * total.fdiv n,
             stop := if i < n - 1 then (i : Int) * total.fdiv n + total.fdiv n - 1
                     else total - 1,
             downloaded := progress i, complete := false } := by
  simp [buildChunks, List.getElem?_map, List.getElem?_range, h]

lemma buildChunks_getElem?_isSome (total : Int) (n : Nat) (progress : Nat → Int)
    (i : Nat) (c : ChunkInfo) (h : (buildChunks total n progress)[i]? = some c) :
    i < n := by
  by_contra hn
  rw [List.getElem?_eq_none] at h
  · exact Option.noConfusion h
  · rw [buildChunks_length]; exact Nat.le_of_not_lt hn

/-- Floor-division facts for `q = total // n` used throughout the partition
proof: `q ≥ 0`, `n*q ≤ total < n*q + n`. -/
lemma fdiv_bounds (total : Int) (n : Nat) (htotal : 0 ≤ total) (hn : 1 ≤ n) :
    0 ≤ total.fdiv n ∧ (n : Int) * total.fdiv n ≤ total ∧
      total < (n : Int) * total.fdiv n + n := by
  have hn0 : (0 : Int) < (n : Int) := by exact_mod_cast hn
  rw [Int.fdiv_eq_ediv _ (le_of_lt hn0)]
  have hmod := Int.ediv_add_emod total (n : Int)
  have hmn : 0 ≤ total % (n : Int) := Int.emod_nonneg total (ne_of_gt hn0)
  have hml : total % (n : Int) < (n : Int) := Int.emod_lt_of_pos total hn0
  refine ⟨Int.ediv_nonneg htotal (le_of_lt hn0), ?_, ?_⟩
  · linarith
  · linarith

lemma buildChunks_fields (total : Int) (n : Nat) (progress : Nat → Int)
    (i : Nat) (h : i < n) :
    ∃ ci, (buildChunks total n progress)[i]? = some ci ∧
      ci.start = (i : Int) * total.fdiv n ∧
      ci.stop = (if i < n - 1 then (i : Int) * total.fdiv n + total.fdiv n - 1
                 else total - 1) := by
  exact ⟨_, buildChunks_getElem? total n progress i h, rfl, rfl⟩

lemma buildChunks_of_some (total : Int) (n : Nat) (progress : Nat → Int)
    (i : Nat) (ci : ChunkInfo) (h : (buildChunks total n progress)[i]? = some ci) :
    i < n ∧ ci.start = (i : Int) * total.fdiv n ∧
      ci.stop = (if i < n - 1 then (i : Int) * total.fdiv n + total.fdiv n - 1
                 else total - 1) := by
  have hi := buildChunks_getElem?_isSome total n progress i ci h
  rw [buildChunks_getElem? total n progress i hi] at h
  have hci := Option.some.inj h
  exact ⟨hi, by rw [← hci], by rw [← hci]⟩

lemma buildChunks_stop_le (total : Int) (n : Nat) (progress : Nat → Int)
    (htotal : 0 ≤ total) (hn : 1 ≤ n)
    (i : Nat) (ci : ChunkInfo) (h : (buildChunks total n progress)[i]? = some ci) :
    ci.stop ≤ total - 1 := by
  obtain ⟨hq0, hqn, hql⟩ := fdiv_bounds total n htotal hn
  obtain ⟨hi, hstart, hstop⟩ := buildChunks_of_some total n progress i ci h
  by_cases hil : i < n - 1
  · rw [hstop, if_pos hil]
    have h1 : ((i : Int) + 1) * total.fdiv n ≤ ((n : Int) - 1) * total.fdiv n := by
      apply mul_le_mul_of_nonneg_right _ hq0
      have : (i : Int) + 1 ≤ (n : Int) - 1 := by omega
      exact this
    have h2 : ((n : Int) - 1) * total.fdiv n = (n : Int) * total.fdiv n - total.fdiv n := by
      ring
    nlinarith
  · rw [hstop, if_neg hil]

/-- Any point of a built range lies in `[0, total-1]`. -/
lemma buildChunks_mem_bounds (total : Int) (n : Nat) (progress : Nat → Int)
    (htotal : 0 ≤ total) (hn : 1 ≤ n)
    (i : Nat) (ci : ChunkInfo) (h : (buildChunks total n progress)[i]? = some ci)
    (x : Int) (hx1 : ci.start ≤ x) (hx2 : x ≤ ci.stop) :
    0 ≤ x ∧ x ≤ total - 1 := by
  obtain ⟨hq0, hqn, hql⟩ := fdiv_bounds total n htotal hn
  obtain ⟨hi, hstart, hstop⟩ := buildChunks_of_some total n progress i ci h
  have hs0 : 0 ≤ ci.start := by
    rw [hstart]
    exact mul_nonneg (by positivity) hq0
  exact ⟨le_trans hs0 hx1,
    le_trans hx2 (buildChunks_stop_le total n progress htotal hn i ci h)⟩

/-- Every point of `[0, total-1]` lies in some built range. -/
lemma buildChunks_covers (total : Int) (n : Nat) (progress : Nat → Int)
    (htotal : 0 ≤ total) (hn : 1 ≤ n)
    (x : Int) (hx0 : 0 ≤ x) (hx1 : x ≤ total - 1) :
    ∃ (i : Nat) (ci : ChunkInfo), (buildChunks total n progress)[i]? = some ci ∧
      ci.start ≤ x ∧ x ≤ ci.stop := by
  obtain ⟨hq0, hqn, hql⟩ := fdiv_bounds total n htotal hn
  set q := total.fdiv n with hq
  obtain ⟨cl, hcl, hclstart, hclstop⟩ :=
    buildChunks_fields total n progress (n - 1) (by omega)
  rw [if_neg (lt_irrefl _)] at hclstop
  rw [← hq] at hclstart
  rcases eq_or_lt_of_le hq0 with hq0' | hqpos
  · -- q = 0: the last range is [0, total-1]
    refine ⟨n - 1, cl, hcl, ?_, ?_⟩
    · rw [hclstart, ← hq0', mul_zero]; exact hx0
    · rw [hclstop]; exact hx1
  · have hdm := Int.ediv_add_emod x q
    have hr0 : 0 ≤ x % q := Int.emod_nonneg x (ne_of_gt hqpos)
    have hrl : x % q < q := Int.emod_lt_of_pos x hqpos
    have hj0 : 0 ≤ x / q := Int.ediv_nonneg hx0 (le_of_lt hqpos)
    by_cases hcase : x / q < (n : Int) - 1
    · -- middle range (x/q)
      have hjcast : ((x / q).toNat : Int) = x / q := Int.toNat_of_nonneg hj0
      have hjlt : (x / q).toNat < n - 1 := by omega
      obtain ⟨ci, hci, hcistart, hcistop⟩ :=
        buildChunks_fields total n progress (x / q).toNat (by omega)
      rw [if_pos hjlt] at hcistop
      rw [← hq] at hcistart hcistop
      refine ⟨(x / q).toNat, ci, hci, ?_, ?_⟩
      · rw [hcistart, hjcast]; nlinarith
      · rw [hcistop, hjcast]; nlinarith
    · -- last range
      refine ⟨n - 1, cl, hcl, ?_, ?_⟩
      · rw [hclstart]
        have hcast : ((n - 1 : Nat) : Int) = (n : Int) - 1 := by omega
        rw [hcast]
        have : ((n : Int) - 1) * q ≤ (x / q) * q :=
          mul_le_mul_of_nonneg_right (by omega) (le_of_lt hqpos)
        nlinarith
      · rw [hclstop]; exact hx1

/-- Distinct built ranges are disjoint (stated for `i < j`). -/
lemma buildChunks_disjoint_lt (total : Int) (n : Nat) (progress : Nat → Int)
    (htotal : 0 ≤ total) (hn : 1 ≤ n)
    (i j : Nat) (ci cj : ChunkInfo)
    (hci : (buildChunks total n progress)[i]? = some ci)
    (hcj : (buildChunks total n progress)[j]? = some cj)
    (hij : i < j) (x : Int) (hx1 : cj.start ≤ x) (hx2 : x ≤ ci.stop) : False := by
  obtain ⟨hq0, hqn, hql⟩ := fdiv_bounds total n htotal hn
  obtain ⟨hi, histart, histop⟩ := buildChunks_of_some total n progress i ci hci
  obtain ⟨hj, hjstart, hjstop⟩ := buildChunks_of_some total n progress j cj hcj
  have hil : i < n - 1 := by omega
  rw [if_pos hil] at histop
  have h1 : ((i : Int) + 1) * total.fdiv n ≤ (j : Int) * total.fdiv n :=
    mul_le_mul_of_nonneg_right (by omega) hq0
  rw [histop] at hx2
  rw [hjstart] at hx1
  nlinarith

/-- C1 (amended): for `total_size ≥ 0` and `N ≥ 1` the partition loop of
`Downloader.download` / `Uploader.upload` yields `N` ranges; range `i` starts
at `i * (total_size // N)`; each range but the last has length
`total_size // N`; the last range ends at `total_size - 1`; the ranges are
contiguous, pairwise disjoint, and their union is exactly `[0, total_size-1]`;
when `total_size = 0` every one of the `N` ranges is empty (a *single* empty
range arises only for `N = 1`). -/
theorem partition_ranges_correct (total : Int) (n : Nat) (progress : Nat → Int)
    (htotal : 0 ≤ total) (hn : 1 ≤ n) :
    (buildChunks total n progress).length = n ∧
    (∀ (i : Nat) (ci : ChunkInfo), (buildChunks total n progress)[i]? = some ci →
       ci.start = (i : Int) * total.fdiv n) ∧
    (∀ (i : Nat) (ci : ChunkInfo), (buildChunks total n progress)[i]? = some ci → i < n - 1 →
       ci.stop - ci.start + 1 = total.fdiv n) ∧
    (∀ cl : ChunkInfo, (buildChunks total n progress)[n-1]? = some cl → cl.stop = total - 1) ∧
    (∀ (i : Nat) (ci cj : ChunkInfo), (buildChunks total n progress)[i]? = some ci →
       (buildChunks total n progress)[i+1]? = some cj → ci.stop + 1 = cj.start) ∧
    (∀ x : Int, (0 ≤ x ∧ x ≤ total - 1) ↔
       ∃ (i : Nat) (ci : ChunkInfo), (buildChunks total n progress)[i]? = some ci ∧
         ci.start ≤ x ∧ x ≤ ci.stop) ∧
    (∀ (i j : Nat) (ci cj : ChunkInfo), (buildChunks total n progress)[i]? = some ci →
       (buildChunks total n progress)[j]? = some cj → i ≠ j →
       ∀ x : Int, ci.start ≤ x → x ≤ ci.stop →
         ¬(cj.start ≤ x ∧ x ≤ cj.stop)) ∧
    (total = 0 → ∀ (i : Nat) (ci : ChunkInfo), (buildChunks total n progress)[i]? = some ci →
       ci.stop < ci.start) := by
  refine ⟨buildChunks_length total n progress, ?_, ?_, ?_, ?_, ?_, ?_, ?_⟩
  · intro i ci h
    exact (buildChunks_of_some total n progress i ci h).2.1
  · intro i ci h hil
    obtain ⟨hi, hstart, hstop⟩ := buildChunks_of_some total n progress i ci h
    rw [if_pos hil] at hstop
    rw [hstart, hstop]; ring
  · intro cl h
    obtain ⟨hi, hstart, hstop⟩ := buildChunks_of_some total n progress (n-1) cl h
    rwa [if_neg (lt_irrefl _)] at hstop
  · intro i ci cj hci hcj
    obtain ⟨hi, histart, histop⟩ := buildChunks_of_some total n progress i ci hci
    obtain ⟨hj, hjstart, hjstop⟩ := buildChunks_of_some total n progress (i+1) cj hcj
    have hil : i < n - 1 := by omega
    rw [if_pos hil] at histop
    rw [histop, hjstart]
    push_cast
    ring
  · intro x
    constructor
    · rintro ⟨hx0, hx1⟩
      exact buildChunks_covers total n progress htotal hn x hx0 hx1
    · rintro ⟨i, ci, hci, hx1, hx2⟩
      exact buildChunks_mem_bounds total n progress htotal hn i ci hci x hx1 hx2
  · intro i j ci cj hci hcj hij x hx1 hx2 hx3
    rcases Nat.lt_or_ge i j with h | h
    · exact buildChunks_disjoint_lt total n progress htotal hn i j ci cj
        hci hcj h x hx3.1 hx2
    · have h' : j < i := by omega
      exact buildChunks_disjoint_lt total n progress htotal hn j i cj ci
        hcj hci h' x hx1 hx3.2
  · intro h0 i ci hci
    subst h0
    obtain ⟨hi, hstart, hstop⟩ := buildChunks_of_some 0 n progress i ci hci
    have hq : (0 : Int).fdiv n = 0 := by
      rw [Int.fdiv_eq_ediv _ (by positivity)]
      simp
    rw [hq, mul_zero] at hstart
    by_cases hil : i < n - 1
    · rw [if_pos hil, hq] at hstop
      rw [hstart, hstop, mul_zero]; omega
    · rw [if_neg hil] at hstop
      rw [hstart, hstop]; omega

/-- C1 counterexample: with `total_size = 0` and `N = 2` the partition loop of
`Downloader.download` / `Uploader.upload` produces two empty ranges, not the
single empty range the claim states for the degenerate case. -/
theorem partition_zero_not_single_range :
    (buildChunks 0 2 (fun _ => 0)).length = 2 ∧
    buildChunks 0 2 (fun _ => 0) =
      [{ start := 0, stop := -1, downloaded := 0, complete := false },
       { start := 0, stop := -1, downloaded := 0, complete := false }] := by
  decide

/-- C1 witness: the partition theorem applied to the spec's scenario
`total_size = 1000000`, `N = 4`. -/
theorem partition_ranges_correct_witness :
    ((0 : Int) ≤ 1000000 ∧ (1 : Nat) ≤ 4) ∧
      (buildChunks 1000000 4 (fun _ => 0)).length = 4 :=
  ⟨⟨by norm_num, by norm_num⟩,
    (partition_ranges_correct 1000000 4 (fun _ => 0) (by norm_num) (by norm_num)).1⟩

/-- C2 counterexample: the on-disk record `"0:500\n"` parses to the mapping
`[(0, 500)]`, but the crash state left immediately after `_save_progress`'s
truncating `open(..., "w")` is the empty file, which parses to the empty
mapping — the previously flushed entry is destroyed, so the checkpoint write
is not an atomic replace. -/
theorem save_progress_not_atomic :
    loadProgress (some "0:500\n") = [(0, 500)] ∧
    (saveProgressStates
      [{ start := 0, stop := 999, downloaded := 800, complete := false }])[0]? =
      some "" ∧
    loadProgress (some "") = [] := by
  decide

/-- C2 (amended): `_save_progress` rewrites the record in place, not through a
temp-file rename: every checkpoint write first truncates the file (the first
crash state is the empty file, regardless of what was flushed before) and
reaches the complete new record only at its final write; the intermediate
states are exactly the line-prefixes of the new record, `chunks.length + 1`
of them. -/
theorem save_progress_truncate_then_write (chunks : List ChunkInfo) :
    (saveProgressStates chunks)[0]? = some "" ∧
    (saveProgressStates chunks)[chunks.length]? =
      some (String.join (progressLines chunks)) ∧
    (saveProgressStates chunks).length = chunks.length + 1 ∧
    (∀ (k : Nat) (s : String), (saveProgressStates chunks)[k]? = some s →
      s = String.join ((progressLines chunks).take k)) := by
  have hlen : (progressLines chunks).length = chunks.length := by
    simp [progressLines]
  refine ⟨?_, ?_, ?_, ?_⟩
  · simp [saveProgressStates, List.getElem?_map, List.getElem?_range, String.join]
  · simp only [saveProgressStates, List.getElem?_map]
    rw [List.getElem?_range (Nat.lt_succ_self chunks.length)]
    have ht : (progressLines chunks).take chunks.length = progressLines chunks := by
      rw [← hlen, List.take_length]
    simp [ht]
  · simp [saveProgressStates]
  · intro k s h
    simp only [saveProgressStates, List.getElem?_map, List.getElem?_range] at h
    rcases Nat.lt_or_ge k (chunks.length + 1) with hk | hk
    · rw [List.getElem?_range hk] at h
      simp at h
      exact h.symm
    · rw [List.getElem?_eq_none (by simpa using hk)] at h
      simp at h

/-- C7: `_load_progress` returns the parsed range-index → bytes-completed
mapping when the progress file exists and parses, and the empty mapping —
without raising — when the file is absent or any line fails the
strip/split/int parse. -/
theorem load_progress_policy (file : Option String) :
    (file = none → loadProgress file = []) ∧
    (∀ (c : String) (m : List (Int × Int)),
      file = some c → parseProgress c = some m → loadProgress file = m) ∧
    (∀ c : String, file = some c → parseProgress c = none →
      loadProgress file = []) := by
  refine ⟨?_, ?_, ?_⟩
  · intro h; subst h; rfl
  · intro c m hc hm; subst hc; simp [loadProgress, hm]
  · intro c hc hm; subst hc; simp [loadProgress, hm]

/-- C7 witness: a well-formed record parses to its mapping; a record with a
non-numeric byte count degrades to the empty mapping. -/
theorem load_progress_policy_witness :
    loadProgress (some "0:5\n1:7\n") = [(0, 5), (1, 7)] ∧
    loadProgress (some "0:corrupt\n") = [] := by
  constructor
  · exact (load_progress_policy (some "0:5\n1:7\n")).2.1 _ _ rfl (by decide)
  · exact (load_progress_policy (some "0:corrupt\n")).2.2 _ rfl (by decide)

lemma uploadMonitorStep_failed_iff (uploaded fileSize : Int)
    (results : List (Option Bool)) :
    uploadMonitorStep uploaded fileSize results = MonitorOutcome.failed ↔
      uploaded < fileSize ∧ results.any (fun r => r == some false) = true := by
  constructor
  · intro h
    by_cases h1 : uploaded < fileSize
    · by_cases h2 : results.any (fun r => r == some false)
      · exact ⟨h1, h2⟩
      · simp [uploadMonitorStep, h1, h2] at h
    · simp [uploadMonitorStep, h1] at h
  · rintro ⟨h1, h2⟩
    simp [uploadMonitorStep, h1, h2]

lemma uploadMonitorStep_complete_iff (uploaded fileSize : Int)
    (results : List (Option Bool)) :
    uploadMonitorStep uploaded fileSize results = MonitorOutcome.complete ↔
      fileSize ≤ uploaded := by
  constructor
  · intro h
    by_cases h1 : uploaded < fileSize
    · by_cases h2 : results.any (fun r => r == some false) <;>
        simp [uploadMonitorStep, h1, h2] at h
    · omega
  · intro h
    have h1 : ¬uploaded < fileSize := by omega
    simp [uploadMonitorStep, h1]

lemma downloadMonitorStep_running_iff (downloaded totalSize : Int)
    (results : List (Option Bool)) :
    downloadMonitorStep downloaded totalSize results =
      MonitorOutcome.stillRunning ↔ downloaded < totalSize := by
  constructor
  · intro h
    by_cases h1 : downloaded < totalSize
    · exact h1
    · simp [downloadMonitorStep, h1] at h
  · intro h1
    simp [downloadMonitorStep, h1]

/-- C3 counterexample: a failed worker (future finished with `False`) while
`downloaded < total_size` leaves `Downloader.download`'s monitor loop in
`stillRunning` — the downloader's loop has no failure exit at all, so the
transfer never terminates with a failure report, contradicting the claim that
the coordinator loop terminates with a `TransferFailed` result. -/
theorem download_monitor_never_fails :
    downloadMonitorStep 0 100 [some false] = MonitorOutcome.stillRunning ∧
    downloadMonitorStep 0 100 [some false] ≠ MonitorOutcome.failed := by
  decide

/-- C3 (amended): the uploader's monitor loop returns failure exactly when a
finished worker returned `False` before `uploaded` reached `file_size` (but
only as a bare `False`, without the set of failed range indices), and reports
completion exactly when `uploaded ≥ file_size`; the downloader's monitor loop
is entirely independent of the worker results, and while
`downloaded < total_size` it polls forever — a failed download worker is
never reported. -/
theorem monitor_loop_failure_policy (uploaded fileSize downloaded totalSize : Int)
    (results altResults : List (Option Bool)) :
    (uploadMonitorStep uploaded fileSize results = MonitorOutcome.failed ↔
      uploaded < fileSize ∧ results.any (fun r => r == some false) = true) ∧
    (uploadMonitorStep uploaded fileSize results = MonitorOutcome.complete ↔
      fileSize ≤ uploaded) ∧
    downloadMonitorStep downloaded totalSize results =
      downloadMonitorStep downloaded totalSize altResults ∧
    (downloadMonitorStep downloaded totalSize results = MonitorOutcome.stillRunning ↔
      downloaded < totalSize) := by
  exact ⟨uploadMonitorStep_failed_iff uploaded fileSize results,
    uploadMonitorStep_complete_iff uploaded fileSize results, rfl,
    downloadMonitorStep_running_iff downloaded totalSize results⟩

lemma singleThreadDownload_foldl (blocks : List (List Nat)) :
    ∀ (c : List Nat) (s : Int),
      blocks.foldl (fun acc b => (acc.1 ++ b, acc.2 + (b.length : Int))) (c, s) =
        (c ++ blocks.flatten, s + (blocks.flatten.length : Int)) := by
  induction blocks with
  | nil => intro c s; simp
  | cons b bs ih =>
    intro c s
    simp only [List.foldl_cons, ih]
    simp [List.flatten_cons]
    omega

/-- The byte count returned by `_single_thread_download` equals the length of
the content it wrote: the locally counted total is the effective size. -/
lemma singleThreadDownload_eq (blocks : List (List Nat)) :
    singleThreadDownload blocks = (blocks.flatten, (blocks.flatten.length : Int)) := by
  have h := singleThreadDownload_foldl blocks [] 0
  simpa [singleThreadDownload] using h

/-- C5: `_get_file_size` returns the HEAD `content-length` as the size unless
that value is absent, empty, or one of the sentinel strings `"0"` / `"357"`
(treated as unknown, not literal); then it returns the streaming GET probe's
`content-length` when present and non-empty; with neither it reports no size,
and `Downloader.download` takes the whole-stream path, whose locally counted
byte total is the size it establishes. -/
theorem file_size_probe_policy (headSize getSize : Option String)
    (blocks : List (List Nat)) :
    (∀ s : String, headSize = some s → s ≠ "" → s ≠ "0" → s ≠ "357" →
      getFileSize headSize getSize = (intOfHeader s).map some) ∧
    ((headSize = none ∨ headSize = some "" ∨ headSize = some "0" ∨
        headSize = some "357") →
      (∀ s : String, getSize = some s → s ≠ "" →
        getFileSize headSize getSize = (intOfHeader s).map some) ∧
      ((getSize = none ∨ getSize = some "") →
        getFileSize headSize getSize = Except.ok none)) ∧
    downloadPlan none 206 = [DlOp.sizeProbe, DlOp.singleStream] ∧
    (singleThreadDownload blocks).2 =
      ((singleThreadDownload blocks).1.length : Int) := by
  refine ⟨?_, ?_, rfl, ?_⟩
  · intro s hs h1 h2 h3
    subst hs
    simp [getFileSize, headerTruthy, h1, h2, h3]
  · intro hhead
    have hfalse : (headerTruthy headSize && !(headSize == some "0") &&
        !(headSize == some "357")) = false := by
      rcases hhead with h | h | h | h <;> subst h <;> simp [headerTruthy]
    constructor
    · intro s hs h1
      subst hs
      unfold getFileSize
      rw [hfalse]
      simp [headerTruthy, h1]
    · intro hget
      unfold getFileSize
      rw [hfalse]
      rcases hget with h | h <;> subst h <;> simp [headerTruthy]
  · rw [singleThreadDownload_eq]

/-- C5 witness: a trustworthy HEAD value is returned; the sentinel `"357"`
falls through to the GET value; sentinel `"0"` with no GET value means the
size is unknown. -/
theorem file_size_probe_policy_witness :
    getFileSize (some "1024") none = Except.ok (some 1024) ∧
    getFileSize (some "357") (some "2048") = Except.ok (some 2048) ∧
    getFileSize (some "0") none = Except.ok none := by
  refine ⟨?_, ?_, ?_⟩
  · have h := (file_size_probe_policy (some "1024") none []).1 "1024" rfl
      (by decide) (by decide) (by decide)
    rw [h]; rfl
  · have h := ((file_size_probe_policy (some "357") (some "2048") []).2.1
      (Or.inr (Or.inr (Or.inr rfl)))).1 "2048" rfl (by decide)
    rw [h]; rfl
  · exact ((file_size_probe_policy (some "0") none []).2.1
      (Or.inr (Or.inr (Or.inl rfl)))).2 (Or.inl rfl)

/-- C6: when the one-byte range probe (`Range: bytes=0-0`) returns any status
other than 206, `Downloader.download` selects the single-threaded whole-stream
path: the executed steps are probe → range-probe → single-stream, and they
include neither the partition step, nor the worker pool (the only writer of
the per-range progress file), nor the loading or removal of a progress file. -/
theorem range_probe_fallback (size : Int) (st : Nat) (hst : st ≠ 206) :
    downloadPlan (some size) st =
      [DlOp.sizeProbe, DlOp.rangeProbe, DlOp.singleStream] ∧
    DlOp.partitionRanges ∉ downloadPlan (some size) st ∧
    DlOp.spawnWorkers ∉ downloadPlan (some size) st ∧
    DlOp.loadProgressOp ∉ downloadPlan (some size) st ∧
    DlOp.removeProgressFile ∉ downloadPlan (some size) st := by
  have hb : (st != 206) = true := by simpa using hst
  simp [downloadPlan, hb]

/-- C6 witness: the spec's scenario — a 200 response to the range probe. -/
theorem range_probe_fallback_witness :
    downloadPlan (some 1000) 200 =
      [DlOp.sizeProbe, DlOp.rangeProbe, DlOp.singleStream] :=
  (range_probe_fallback 1000 200 (by decide)).1

lemma downloadChunkLoop_writes_shape (blocks : List (List Nat)) :
    ∀ (chunk : ChunkInfo) (pause : List Bool) (acc : List (Int × List Nat)),
      (downloadChunkLoop chunk blocks pause acc).writes =
        acc ++ mkWrites (chunk.start + chunk.downloaded) blocks pause := by
  induction blocks with
  | nil => intro chunk pause acc; simp [downloadChunkLoop, mkWrites]
  | cons b bs ih =>
    intro chunk pause acc
    by_cases hb : b.isEmpty
    · simp [downloadChunkLoop, mkWrites, hb]
    · by_cases hp : pause.head?.getD false
      · simp [downloadChunkLoop, mkWrites, hb, hp]
      · simp only [downloadChunkLoop, mkWrites, hb, hp, List.headD_eq_head?,
          Bool.false_eq_true, if_false]
        rw [ih]
        simp [add_assoc]

lemma mkWrites_offsets (blocks : List (List Nat)) :
    ∀ (base : Int) (ps : List Bool) (k : Nat) (w : Int × List Nat),
      (mkWrites base blocks ps)[k]? = some w →
      w.1 = base +
        (((mkWrites base blocks ps).take k).map
          (fun p => (p.2.length : Int))).sum := by
  induction blocks with
  | nil => intro base ps k w h; simp [mkWrites] at h
  | cons b bs ih =>
    intro base ps k w h
    by_cases hb : b.isEmpty
    · simp [mkWrites, hb] at h
    · by_cases hp : ps.head?.getD false
      · simp [mkWrites, hb, hp] at h
      · simp only [mkWrites, hb, hp, List.headD_eq_head?, Bool.false_eq_true,
          if_false] at h ⊢
        match k with
        | 0 =>
          simp at h
          rw [← h]
          simp
        | k + 1 =>
          simp only [List.getElem?_cons_succ] at h
          have := ih (base + b.length) ps.tail k w h
          rw [this]
          simp [List.take_succ_cons]
          ring

/-- C8: for every chunk with `completed` bytes already downloaded,
`_download_chunk` requests `Range: bytes=<start+completed>-<end>`; on any
response status other than 206 it returns `False` to the pool — the raised
`ValueError` is caught, nothing is written, no exception escapes the worker;
on 206 each received block is written at offset `start + completed` plus the
bytes already written before it, i.e. the blocks land contiguously from
`start + completed` onward. -/
theorem download_chunk_worker (chunk : ChunkInfo) (status : Nat)
    (blocks : List (List Nat)) (pause : List Bool) :
    downloadRangeHeader chunk =
      "bytes=" ++ toString (chunk.start + chunk.downloaded) ++ "-" ++
        toString chunk.stop ∧
    (status ≠ 206 → downloadChunk chunk status blocks pause =
      { result := false, writes := [], chunk := chunk }) ∧
    (status = 206 → ∀ (k : Nat) (w : Int × List Nat),
      (downloadChunk chunk status blocks pause).writes[k]? = some w →
      w.1 = chunk.start + chunk.downloaded +
        ((((downloadChunk chunk status blocks pause).writes.take k).map
          (fun p => (p.2.length : Int))).sum)) := by
  refine ⟨rfl, ?_, ?_⟩
  · intro h
    have hb : (status != 206) = true := by simpa using h
    simp [downloadChunk, hb]
  · intro h k w hw
    subst h
    have hshape := downloadChunkLoop_writes_shape blocks chunk pause []
    simp only [downloadChunk, bne_self_eq_false, Bool.false_eq_true,
      if_false] at hw ⊢
    rw [hshape, List.nil_append] at hw ⊢
    exact mkWrites_offsets blocks (chunk.start + chunk.downloaded) pause k w hw

/-- C8 witness: a worker resuming a range `[100, 199]` with 50 bytes done
requests `bytes=150-199`, and on a 404 status reports `False` with no
writes. -/
theorem download_chunk_worker_witness :
    downloadRangeHeader { start := 100, stop := 199, downloaded := 50 } =
      "bytes=150-199" ∧
    downloadChunk { start := 100, stop := 199, downloaded := 50 } 404
      [[1, 2]] [] =
      { result := false, writes := [],
        chunk := { start := 100, stop := 199, downloaded := 50 } } := by
  constructor
  · have h := (download_chunk_worker
      { start := 100, stop := 199, downloaded := 50 } 404 [[1, 2]] []).1
    rw [h]; rfl
  · exact (download_chunk_worker _ 404 [[1, 2]] []).2.1 (by decide)

lemma buildChunks_range_nonneg (total : Int) (n : Nat) (progress : Nat → Int)
    (htotal : 0 ≤ total) (hn : 1 ≤ n)
    (i : Nat) (ci : ChunkInfo)
    (h : (buildChunks total n progress)[i]? = some ci) :
    0 ≤ ci.start ∧ 0 ≤ ci.stop - ci.start + 1 := by
  obtain ⟨hq0, hqn, hql⟩ := fdiv_bounds total n htotal hn
  obtain ⟨hi, hstart, hstop⟩ := buildChunks_of_some total n progress i ci h
  have hs0 : 0 ≤ ci.start := by
    rw [hstart]; exact mul_nonneg (by positivity) hq0
  refine ⟨hs0, ?_⟩
  by_cases hil : i < n - 1
  · rw [hstop, if_pos hil, hstart]; linarith
  · rw [hstop, if_neg hil, hstart]
    have hieq : (i : Int) = (n : Int) - 1 := by omega
    rw [hieq]
    have h1 : ((n : Int) - 1) * total.fdiv n =
        (n : Int) * total.fdiv n - total.fdiv n := by ring
    linarith

/-- C4 counterexample: a middle slice sent with
`Content-Range: bytes 2-3/4` makes `handle_upload` replace the whole stored
file with the 2-byte body instead of placing it at offset 2 of the assembled
4-byte file. -/
theorem handle_upload_ignores_offset :
    handleUpload true 2 [2, 2] [1, 1, 1, 1] = (200, [2, 2]) ∧
    placeSliceAtOffsetSpec [1, 1, 1, 1] [2, 2] 2 = [1, 1, 2, 2] ∧
    ([2, 2] : List Nat) ≠ [1, 1, 2, 2] := by
  decide

/-- C4 (amended): for every chunk of the upload partition,
`Uploader._upload_chunk` reads exactly `end - start + 1` bytes from the
source at offset `start` and sends the header
`Content-Range: bytes <start>-<end>/<total>`; the server's `handle_upload`,
however, never consults `Content-Range`: it replaces the whole destination
file with the received body (placing the slice at offset 0 of a truncated
file). -/
theorem upload_chunk_reads_slice (file : List Nat) (n : Nat) (hn : 1 ≤ n)
    (i : Nat) (ci : ChunkInfo)
    (hci : (buildChunks (file.length : Int) n (fun _ => 0))[i]? = some ci) :
    0 ≤ ci.stop - ci.start + 1 ∧
    ((readChunkData file ci).length : Int) = ci.stop - ci.start + 1 ∧
    readChunkData file ci =
      (file.drop ci.start.toNat).take (ci.stop - ci.start + 1).toNat ∧
    contentRangeHeader ci (file.length : Int) =
      "bytes " ++ toString ci.start ++ "-" ++ toString ci.stop ++ "/" ++
        toString (file.length : Int) ∧
    (∀ body old : List Nat, body ≠ [] →
      handleUpload true body.length body old = (200, body)) := by
  have htotal : (0 : Int) ≤ (file.length : Int) := by positivity
  obtain ⟨hs0, hlen0⟩ :=
    buildChunks_range_nonneg (file.length : Int) n (fun _ => 0) htotal hn i ci hci
  have hstople :=
    buildChunks_stop_le (file.length : Int) n (fun _ => 0) htotal hn i ci hci
  have hnotlt : ¬(ci.stop - ci.start + 1 < 0) := by omega
  refine ⟨hlen0, ?_, ?_, rfl, ?_⟩
  · simp only [readChunkData, if_neg hnotlt]
    rw [List.length_take, List.length_drop]
    omega
  · simp [readChunkData, if_neg hnotlt]
  · intro body old hbody
    have hb : (body.length == 0) = false := by
      simp [List.length_eq_zero]
      exact hbody
    simp [handleUpload, hb]

/-- C4 witness: slice `[30, 40]` of the 4-byte file split in two ranges, with
header `bytes 2-3/4`. -/
theorem upload_chunk_reads_slice_witness :
    readChunkData [10, 20, 30, 40] { start := 2, stop := 3 } = [30, 40] ∧
    contentRangeHeader { start := 2, stop := 3 }
      (([10, 20, 30, 40] : List Nat).length : Int) = "bytes 2-3/4" := by
  have h := upload_chunk_reads_slice [10, 20, 30, 40] 2 (by decide) 1
    { start := 2, stop := 3 } (by decide)
  constructor
  · rw [h.2.2.1]; rfl
  · rw [h.2.2.2.1]; rfl

/-- C10: if the shared pause event is set when `_upload_chunk` begins, the
worker returns `True` while transferring nothing — the chunk's `downloaded`
and `complete` fields and the shared `uploaded` counter are all unchanged —
even though `Uploader.upload`'s monitor loop counts only a `False` result as
failure and reports completion only once `uploaded` reaches `file_size`. -/
theorem upload_chunk_pause_frame (chunk : ChunkInfo) (file : List Nat)
    (respOk : Bool) (uploaded fileSize : Int)
    (results : List (Option Bool)) :
    uploadChunk chunk true file respOk uploaded = (true, chunk, uploaded) ∧
    (uploadMonitorStep uploaded fileSize results = MonitorOutcome.failed ↔
      uploaded < fileSize ∧ results.any (fun r => r == some false) = true) ∧
    (uploadMonitorStep uploaded fileSize results = MonitorOutcome.complete ↔
      fileSize ≤ uploaded) :=
  ⟨rfl, uploadMonitorStep_failed_iff uploaded fileSize results,
    uploadMonitorStep_complete_iff uploaded fileSize results⟩

/-- C9 counterexample: 2048 bytes added over a 1-second window are reported
with a rate of `2` (kilobytes per second), not the `2048` bytes per second
the claim asserts. -/
theorem update_progress_kbps :
    (updateProgress 2048 1 0 50 100 true 0).callbackArgs = some (50, 2) ∧
    (2048 : ℚ) / (1 - 0) ≠ 2 := by
  constructor
  · norm_num [updateProgress]
  · norm_num

/-- C9 (amended): when the callback fires, the delivered percentage is
`100 * transferred / total_size`, lying in `[0, 100]` whenever
`0 ≤ transferred ≤ total_size`; the delivered rate is
`bytes_added / time_diff / 1024` — kilobytes per second computed from the
bytes added since the last observation window, not bytes per second. -/
theorem update_progress_report (bytesAdded : Int) (ct lu : ℚ)
    (transferred totalSize : Int) (prevSpeed : ℚ)
    (hwin : ct - lu ≥ 1 / 10) (h0 : 0 ≤ transferred)
    (h1 : transferred ≤ totalSize) (hpos : 0 < totalSize) :
    (updateProgress bytesAdded ct lu transferred totalSize true
        prevSpeed).callbackArgs =
      some ((transferred : ℚ) / (totalSize : ℚ) * 100,
        (bytesAdded : ℚ) / (ct - lu) / 1024) ∧
    0 ≤ (transferred : ℚ) / (totalSize : ℚ) * 100 ∧
    (transferred : ℚ) / (totalSize : ℚ) * 100 ≤ 100 := by
  have hT : (0 : ℚ) < (totalSize : ℚ) := by exact_mod_cast hpos
  have ht0 : (0 : ℚ) ≤ (transferred : ℚ) := by exact_mod_cast h0
  have ht1 : (transferred : ℚ) ≤ (totalSize : ℚ) := by exact_mod_cast h1
  refine ⟨?_, ?_, ?_⟩
  · simp only [updateProgress, if_pos hwin]
    rfl
  · exact mul_nonneg (div_nonneg ht0 (le_of_lt hT)) (by norm_num)
  · have hle1 : (transferred : ℚ) / (totalSize : ℚ) ≤ 1 := by
      rw [div_le_one hT]; exact ht1
    nlinarith

/-- C9 witness: 1024 bytes over one second at 25 of 100 bytes transferred
reports `(25, 1)`. -/
theorem update_progress_report_witness :
    (updateProgress 1024 2 1 25 100 true 0).callbackArgs = some (25, 1) := by
  rw [(update_progress_report 1024 2 1 25 100 0 (by norm_num) (by norm_num)
    (by norm_num) (by norm_num)).1]
  norm_num
